import Mathlib

/-!
Verification model of `BlockAllocator<SIZE>` from `src/xo-alloc.h`.

The allocator manages a byte buffer `m_Buffer[SIZE]`.  A `Block` header
(4 bytes: `bool Free:1; uint32_t Size:31;`) prefixes every block; the
block after a header at address `a` starts at `a + sizeof(Block) + Size`.
We model the arena state as the list of headers reachable from the
buffer start at addresses `< SIZE` (every loop in the source iterates
with the bound `i < e`), with addresses implicit: the j-th list entry
sits at address `hdr * j + sum of the sizes of the earlier entries`.

Modelling conventions, each mirroring a construct of the source:
* assignments to the 31-bit `Size` bitfield reduce modulo `2^31` (`u31`);
* the comparison `nextSize <= sizeof(Block)` in `InternalMalloc` compares
  a signed `intptr_t` with an unsigned `size_t`, so C++ converts
  `nextSize` to an unsigned 64-bit value first (`uns64`);
* a header stored by the split branch of `InternalMalloc` enters the
  chain only if its address is below the buffer end; the blocks after it
  stay in the chain only if it still reaches them (`0 <= nextSize`): a
  negative `nextSize` stored into the 31-bit field makes the successor
  address jump past the buffer end, so the old successors become
  unreachable from the buffer start;
* `InternalFree` with a pointer whose header address is in bounds but is
  not the address of a chain header touches bytes the chain does not
  determine, so the model returns `none` there; likewise a coalescing
  step whose wrapped size would make the successor address land on
  undetermined bytes.
-/

namespace XoAlloc

/-- Value of `sizeof(Block)`: the packed header `bool Free:1; uint32_t Size:31;`
occupies 4 bytes. -/
def hdr : Nat := 4

/-- Storing an integer into the 31-bit `Size` bitfield keeps it modulo `2^31`
(the literal is `2^31`). -/
def u31 (x : Int) : Nat := (x % 2147483648).toNat

/-- Variant of `u31` for `Nat` arguments, used for the size additions in
`JoinBlocks`. -/
def u31n (t : Nat) : Nat := t % 2147483648

/-- A signed 64-bit value reinterpreted as `uint64`, as C++ does when comparing
`intptr_t` with the unsigned `size_t` (the literal is `2^64`). -/
def uns64 (x : Int) : Nat := (x % 18446744073709551616).toNat

/-- One block header: `bool Free:1; uint32_t Size:31;`. -/
structure Block where
  Free : Bool
  Size : Nat
deriving DecidableEq, Repr

/-- Number of buffer bytes covered by a list of blocks: each block occupies
`hdr + Size` bytes. -/
def sumBlocks : List Block → Nat
  | [] => 0
  | b :: rest => hdr + b.Size + sumBlocks rest

/-- Address of the j-th header of a chain, counting from the buffer start. -/
def blockAddr : List Block → Nat → Nat
  | _, 0 => 0
  | [], _ + 1 => 0
  | b :: rest, j + 1 => hdr + b.Size + blockAddr rest j

/-- No two physically adjacent blocks are both free (spec invariant 3). -/
def noAdjFree (L : List Block) : Prop :=
  List.Chain' (fun x y => ¬(x.Free = true ∧ y.Free = true)) L

/-- Boolean version of `noAdjFree`, used to decide it by evaluation. -/
def noAdjFreeB : List Block → Bool
  | [] => true
  | [_] => true
  | x :: y :: rest => (!(x.Free && y.Free)) && noAdjFreeB (y :: rest)

theorem noAdjFreeB_iff (L : List Block) : noAdjFreeB L = true ↔ noAdjFree L := by
  induction L with
  | nil => simp [noAdjFreeB, noAdjFree]
  | cons x rest ih =>
    cases rest with
    | nil => simp [noAdjFreeB, noAdjFree]
    | cons y rest2 =>
      unfold noAdjFree at ih ⊢
      rw [List.chain'_cons, ← ih]
      cases hx : x.Free <;> cases hy : y.Free <;> simp [noAdjFreeB, hx, hy]

instance (L : List Block) : Decidable (noAdjFree L) :=
  decidable_of_iff (noAdjFreeB L = true) (noAdjFreeB_iff L)

/-- The freshly constructed arena (`BlockAllocator()` constructor): one free
block with `Size = SIZE - sizeof(Block)`. -/
def fresh (cap : Nat) : List Block := [⟨true, u31 ((cap : Int) - hdr)⟩]

/-- Index of the first (lowest-address) block that is free with payload size at
least `req`.  This is the selection rule in the words of the spec
("linear first-fit scan starting at the arena's first block"), used to compare
against the scan of `InternalMalloc`. -/
def specFirstFit (req : Nat) : List Block → Option Nat
  | [] => none
  | b :: rest =>
    if b.Free = true ∧ req ≤ b.Size then some 0
    else (specFirstFit req rest).map (fun j => j + 1)

/-- The scan loop of `InternalMalloc`, carrying the address `a` of the current
header.  Mirrors:
`for(;i < e; i = i->Next()) { if(i->Free && i->Size >= size) { ... } }`.
On selection the source runs `i->Free = false; intptr_t oldSize = i->Size;
i->Size = size; Block* n = i->Next(); intptr_t nextSize =
(oldSize-size-sizeof(Block));`.  The branch condition
`nextSize <= sizeof(Block)` converts `nextSize` to unsigned (`uns64`), so a
negative `nextSize` takes the split branch.  The absorb branch runs
`i->Size += nextSize + sizeof(Block)`, the split branch writes a fresh header
`n->Free = true; n->Size = nextSize` at address `a + hdr + size`; both return
the payload address `i+1`, here `a + hdr`. -/
def mallocGo (cap req : Nat) : Nat → List Block → List Block × Option Nat
  | _, [] => ([], none)
  | a, b :: rest =>
    if cap ≤ a then (b :: rest, none)
    else if b.Free = true ∧ req ≤ b.Size then
      if uns64 ((b.Size : Int) - req - hdr) ≤ hdr then
        (⟨false, u31 (req + ((b.Size : Int) - req - hdr) + hdr)⟩ :: rest, some (a + hdr))
      else
        if a + hdr + req < cap then
          (⟨false, req⟩ :: ⟨true, u31 ((b.Size : Int) - req - hdr)⟩ ::
            (if 0 ≤ (b.Size : Int) - req - hdr then rest else []), some (a + hdr))
        else
          ([⟨false, req⟩], some (a + hdr))
    else
      let r := mallocGo cap req (a + hdr + b.Size) rest
      (b :: r.1, r.2)

/-- `InternalMalloc(size)`: first-fit scan from the buffer start.  Returns the
updated chain and the returned payload address (`none` models `nullptr`). -/
def InternalMalloc (cap req : Nat) (L : List Block) : List Block × Option Nat :=
  mallocGo cap req 0 L

/-- Locate the chain header at address `m`, returning the earlier blocks in
reverse order, the block itself, and the later blocks.  Chain addresses are
strictly increasing, so once the running address passes `m` no header sits at
`m`: the target is then not a header of the chain. -/
def findBlock (m : Nat) : Nat → List Block → List Block → Option (List Block × Block × List Block)
  | _, _, [] => none
  | a, P, b :: rest =>
    if a = m then some (P, b, rest)
    else if m < a then none
    else findBlock m (a + hdr + b.Size) (b :: P) rest

/-- Forward half of `JoinBlocks`: `if(n < e && n->Free)
{ m->Size += n->Size + sizeof(Block); }`.  Input `s` is the size of the block
being freed, `S` the following blocks; for the last chain block the successor
address is at or past the buffer end, so no merge happens (`n < e` fails).
When the 31-bit sum wraps, the merged block reaches its old successor again
exactly when the wrapped size equals `s`; any other wrap leaves the model
(`none`). -/
def joinForward (s : Nat) : List Block → Option (Nat × List Block)
  | [] => some (s, [])
  | n :: S1 =>
    if n.Free = true then
      if s + n.Size + hdr < 2147483648 then some (s + n.Size + hdr, S1)
      else if u31n (s + n.Size + hdr) = s then some (s, n :: S1)
      else none
    else some (s, n :: S1)

/-- Backward half of `JoinBlocks`: `Block* p = m->Previous(b);
if(p != m && p->Free) { p->Size += m->Size + sizeof(Block); }`.
`Previous` scans forward from the buffer start while
`(char*)s + s->Size + sizeof(Block) < (char*)this`; since chain addresses are
strictly increasing this yields the chain predecessor, or the block itself
when it is the first block (then `p == m` and nothing happens).  The reversed
earlier blocks are passed as the last argument.  Wrapped sums are treated as
in `joinForward`. -/
def joinBackward (s : Nat) (S : List Block) : List Block → Option (List Block)
  | [] => some (⟨true, s⟩ :: S)
  | p0 :: P1 =>
    if p0.Free = true then
      if p0.Size + s + hdr < 2147483648 then
        some (P1.reverse ++ ⟨true, p0.Size + s + hdr⟩ :: S)
      else if u31n (p0.Size + s + hdr) = p0.Size then
        some ((p0 :: P1).reverse ++ ⟨true, s⟩ :: S)
      else none
    else some ((p0 :: P1).reverse ++ ⟨true, s⟩ :: S)

/-- `JoinBlocks(b, e, m)` for a block `m` that has just been marked free
(`m->Free` holds): first consume the next block if free, then merge into the
previous block if free. -/
def JoinBlocks (P : List Block) (s : Nat) (S : List Block) : Option (List Block) :=
  match joinForward s S with
  | none => none
  | some (s1, S1) => joinBackward s1 S1 P

/-- `InternalFree(mem)`: `Block* m = (Block*)mem - 1;
if(m < i || m > e) return; m->Free = true; JoinBlocks(i, e, m);`.
The pointer is an offset `p` from the buffer start, so the guard is
`p - hdr < 0 || p - hdr > cap`.  Note the guard uses `m > e`, not `m >= e`.
If the unrejected header address is not an address of the chain the source
mutates bytes the chain does not determine (`none`). -/
def InternalFree (cap : Nat) (L : List Block) (p : Int) : Option (List Block) :=
  if p - hdr < 0 ∨ p - hdr > cap then some L
  else
    match findBlock (p - hdr).toNat 0 [] L with
    | none => none
    | some (P, b, S) => JoinBlocks P b.Size S

/-- Public `Free(void* m)`: `if(m) { InternalFree(m); }`.  A null handle is
`none` and is a no-op. -/
def Free (cap : Nat) (L : List Block) : Option Int → Option (List Block)
  | none => some L
  | some p => InternalFree cap L p

/-- An arena operation: a raw allocation request or a release of a pointer
(given as an offset from the buffer start). -/
inductive Op where
  | malloc : Nat → Op
  | free : Int → Op
deriving DecidableEq, Repr

/-- Run a list of operations, collecting the handle returned by every
allocation, in order.  A release that leaves the model yields `none`. -/
def runGo (cap : Nat) : List Block → List (Option Nat) → List Op → Option (List Block × List (Option Nat))
  | L, hs, [] => some (L, hs.reverse)
  | L, hs, Op.malloc n :: ops =>
    runGo cap (InternalMalloc cap n L).1 ((InternalMalloc cap n L).2 :: hs) ops
  | L, hs, Op.free p :: ops =>
    match InternalFree cap L p with
    | none => none
    | some L2 => runGo cap L2 hs ops

/-- Run a list of operations from the freshly constructed arena. -/
def run (cap : Nat) (ops : List Op) : Option (List Block × List (Option Nat)) :=
  runGo cap (fresh cap) [] ops

/-! ### Helper lemmas -/

theorem sumBlocks_append (X Y : List Block) :
    sumBlocks (X ++ Y) = sumBlocks X + sumBlocks Y := by
  induction X with
  | nil => simp [sumBlocks]
  | cons b rest ih => simp [sumBlocks, ih]; omega

/-- The handle returned by the scan of `InternalMalloc` is the payload address
of the first free block large enough, independently of the address `a` the scan
starts from, provided the blocks fit in the buffer. -/
theorem mallocGo_handle (cap req : Nat) :
    ∀ (R : List Block) (a : Nat), a + sumBlocks R ≤ cap →
      (mallocGo cap req a R).2
        = (specFirstFit req R).map (fun j => a + blockAddr R j + hdr) := by
  intro R
  induction R with
  | nil => intro a h; simp [mallocGo, specFirstFit]
  | cons b rest ih =>
    intro a h
    have ha : ¬ cap ≤ a := by simp [sumBlocks, hdr] at h; omega
    by_cases hsel : b.Free = true ∧ req ≤ b.Size
    · simp only [mallocGo, if_neg ha, if_pos hsel]
      split
      · simp [specFirstFit, hsel, blockAddr]
      · split
        · simp [specFirstFit, hsel, blockAddr]
        · simp [specFirstFit, hsel, blockAddr]
    · have hb : a + hdr + b.Size + sumBlocks rest ≤ cap := by
        simp [sumBlocks] at h; omega
      simp only [mallocGo, if_neg ha, if_neg hsel]
      rw [ih (a + hdr + b.Size) hb]
      simp only [specFirstFit, if_neg hsel, Option.map_map]
      cases specFirstFit req rest with
      | none => simp
      | some j => simp [blockAddr]; omega

/-- The scan fails exactly when no free block is large enough. -/
theorem specFirstFit_eq_none (req : Nat) :
    ∀ L : List Block, specFirstFit req L = none ↔ ∀ b ∈ L, b.Free = true → b.Size < req := by
  intro L
  induction L with
  | nil => simp [specFirstFit]
  | cons b rest ih =>
    by_cases hsel : b.Free = true ∧ req ≤ b.Size
    · simp only [specFirstFit, if_pos hsel]
      constructor
      · intro h; exact absurd h (by simp)
      · intro h
        exact absurd (h b (by simp) hsel.1) (by omega)
    · simp only [specFirstFit, if_neg hsel, Option.map_eq_none', ih]
      constructor
      · intro h c hc hcf
        rcases List.mem_cons.mp hc with rfl | hc2
        · by_contra hlt
          exact hsel ⟨hcf, by omega⟩
        · exact h c hc2 hcf
      · intro h c hc hcf
        exact h c (List.mem_cons_of_mem _ hc) hcf

theorem hdr_mul_length_le (L : List Block) : hdr * L.length ≤ sumBlocks L := by
  induction L with
  | nil => simp [sumBlocks]
  | cons b rest ih => simp [sumBlocks, List.length_cons, Nat.mul_succ]; omega

theorem blockAddr_lt_succ (L : List Block) :
    ∀ j, j < L.length → blockAddr L j + hdr ≤ blockAddr L (j + 1) := by
  induction L with
  | nil => intro j hj; simp at hj
  | cons b rest ih =>
    intro j hj
    cases j with
    | zero => simp [blockAddr, hdr]
    | succ k =>
      have := ih k (by simpa using Nat.lt_of_succ_lt_succ hj)
      simp only [blockAddr]
      omega

theorem blockAddr_length (L : List Block) : blockAddr L L.length = sumBlocks L := by
  induction L with
  | nil => simp [blockAddr, sumBlocks]
  | cons b rest ih => simp [blockAddr, sumBlocks, List.length_cons, ih]

theorem u31_ofNat (n : Nat) (h : n < 2147483648) : u31 (n : Int) = n := by
  unfold u31
  rw [Int.emod_eq_of_lt (by omega) (by exact_mod_cast h)]
  simp

theorem fresh_eq (cap : Nat) (h4 : hdr ≤ cap) (hcap : cap < 2147483648) :
    fresh cap = [⟨true, cap - hdr⟩] := by
  unfold fresh
  have : ((cap : Int) - hdr) = ((cap - hdr : Nat) : Int) := by
    simp [hdr] at h4 ⊢
    omega
  rw [this, u31_ofNat _ (by simp [hdr] at h4 ⊢; omega)]

theorem uns64_ofNat (n : Nat) (h : n < 18446744073709551616) : uns64 (n : Int) = n := by
  unfold uns64
  rw [Int.emod_eq_of_lt (by omega) (by exact_mod_cast h)]
  simp

/-! ### Claim theorems -/

/-- Claim C1 (code bug): conservation fails.  From a fresh 32-byte arena, after
`Malloc(4)`, `Malloc(8)`, `Free` of the first handle and a second `Malloc(4)`
(an exact fit in the freed block, leftover `-4`), the signed `nextSize` is
compared with the unsigned `sizeof(Block)` and converted to unsigned, so the
split branch runs and stores a header with `Size = 2^31 - 4` on top of the
following occupied block.  The blocks then cover `2^31 + 8` bytes, not 32. -/
theorem c1_conservation_broken :
    run 32 [.malloc 4, .malloc 8, .free 4, .malloc 4]
      = some ([⟨false, 4⟩, ⟨true, 2147483644⟩], [some 4, some 12, some 4]) ∧
    sumBlocks [⟨false, 4⟩, ⟨true, 2147483644⟩] ≠ 32 := by decide

/-- Claim C2 (code bug): in the near-fit case (`oldSize - s < headerSize`,
here an exact fit `oldSize = s = 4`, leftover `-4 ≤ headerSize`), the claim
requires that no new block be created and the occupied block keep size
`oldSize`.  The reachable state `[free 4, occ 8, free 8]` (cap 32) shows the
code instead taking the split branch: it creates a new free block with
`Size = 2^31 - 4` whose header lands exactly on the following occupied
block's header. -/
theorem c2_nearfit_splits :
    run 32 [.malloc 4, .malloc 8, .free 4]
      = some ([⟨true, 4⟩, ⟨false, 8⟩, ⟨true, 8⟩], [some 4, some 12]) ∧
    InternalMalloc 32 4 [⟨true, 4⟩, ⟨false, 8⟩, ⟨true, 8⟩]
      = ([⟨false, 4⟩, ⟨true, 2147483644⟩], some 4) ∧
    ([⟨false, 4⟩, ⟨true, 2147483644⟩] : List Block)
      ≠ [⟨false, 4⟩, ⟨false, 8⟩, ⟨true, 8⟩] := by decide

/-- Claim C3: the scan of `InternalMalloc` is first-fit.  For any state whose
blocks exactly cover the buffer, the returned handle is the payload address
(header address plus `hdr`) of the lowest-address free block whose size is at
least the request, and the scan returns `nullptr` exactly when no free block
is large enough. -/
theorem c3_first_fit (cap req : Nat) (L : List Block) (hsum : sumBlocks L = cap) :
    (InternalMalloc cap req L).2
      = (specFirstFit req L).map (fun j => blockAddr L j + hdr) ∧
    ((InternalMalloc cap req L).2 = none ↔ ∀ b ∈ L, b.Free = true → b.Size < req) := by
  have h1 : (InternalMalloc cap req L).2
      = (specFirstFit req L).map (fun j => 0 + blockAddr L j + hdr) :=
    mallocGo_handle cap req L 0 (by omega)
  constructor
  · simpa using h1
  · rw [h1]
    simp only [Option.map_eq_none']
    exact specFirstFit_eq_none req L

theorem c3_first_fit_witness :
    sumBlocks [⟨true, 4⟩, ⟨false, 8⟩, ⟨true, 8⟩] = 32 ∧
    ((InternalMalloc 32 5 [⟨true, 4⟩, ⟨false, 8⟩, ⟨true, 8⟩]).2
      = (specFirstFit 5 [⟨true, 4⟩, ⟨false, 8⟩, ⟨true, 8⟩]).map
          (fun j => blockAddr [⟨true, 4⟩, ⟨false, 8⟩, ⟨true, 8⟩] j + hdr) ∧
    ((InternalMalloc 32 5 [⟨true, 4⟩, ⟨false, 8⟩, ⟨true, 8⟩]).2 = none ↔
      ∀ b ∈ [(⟨true, 4⟩ : Block), ⟨false, 8⟩, ⟨true, 8⟩], b.Free = true → b.Size < 5)) :=
  ⟨by decide, c3_first_fit 32 5 [⟨true, 4⟩, ⟨false, 8⟩, ⟨true, 8⟩] (by decide)⟩

/-- Claim C5 counterexample: the bounds guard of `InternalFree` tests
`m < i || m > e` with `m = p - sizeof(Block)`, so a pointer in
`(end, end + hdr]` is not rejected.  From a fresh 32-byte arena, `Malloc(26)`
(a near-fit, leftover `-2`, which plants a wrapped free header at offset 30)
followed by `Malloc(5)` makes the allocator return the handle 34, which lies
beyond the 32-byte buffer; releasing that out-of-bounds pointer then flips
the header at offset 30 to free instead of being a no-op. -/
theorem c5_out_of_bounds_write :
    run 32 [.malloc 26, .malloc 5] = some ([⟨false, 26⟩, ⟨false, 5⟩], [some 4, some 34]) ∧
    (32 : Int) < 34 ∧
    InternalFree 32 [⟨false, 26⟩, ⟨false, 5⟩] 34 ≠ some [⟨false, 26⟩, ⟨false, 5⟩] := by decide

/-- Claim C5 as amended: `release` is a silent no-op for a null handle and for
every pointer `p` with `p < begin + hdr` or `p > end + hdr`; only the pointers
in `(end, end + hdr]` slip past the guard. -/
theorem c5_guard_noop (cap : Nat) (L : List Block) (po : Option Int)
    (h : po = none ∨ ∃ q, po = some q ∧ (q < hdr ∨ (cap : Int) + hdr < q)) :
    Free cap L po = some L := by
  rcases h with rfl | ⟨q, rfl, hq⟩
  · rfl
  · show InternalFree cap L q = some L
    unfold InternalFree
    rw [if_pos]
    rcases hq with h1 | h2
    · left; simp [hdr] at h1 ⊢; omega
    · right; simp [hdr] at h2 ⊢; omega

theorem c5_guard_noop_witness :
    (some (40 : Int) = none ∨
      ∃ q, some (40 : Int) = some q ∧ (q < hdr ∨ (32 : Int) + hdr < q)) ∧
    Free 32 (fresh 32) (some 40) = some (fresh 32) :=
  ⟨Or.inr ⟨40, rfl, Or.inr (by decide)⟩,
   c5_guard_noop 32 (fresh 32) (some 40) (Or.inr ⟨40, rfl, Or.inr (by decide)⟩)⟩

/-- Claim C7 (code bug): releasing every returned handle exactly once does not
restore the fresh arena.  With cap 128, the handles returned are 4, 28 and 4
(the fourth operation is an exact fit in the freed first block, which plants a
wrapped header over the second block), and each is released exactly once; the
final state is two free blocks of sizes 20 and `2^31 - 4` instead of the
single free block of size 124. -/
theorem c7_full_release_bug :
    run 128 [.malloc 20, .malloc 40, .free 4, .malloc 20, .free 28, .free 4]
      = some ([⟨true, 20⟩, ⟨true, 2147483644⟩], [some 4, some 28, some 4]) ∧
    ([⟨true, 20⟩, ⟨true, 2147483644⟩] : List Block) ≠ fresh 128 := by decide

/-- Claim C8 (code bug): a successful allocation may modify more than the
selected block's header and a header carved out of the selected block.  At the
reachable state `[free 4, occ 8, free 8]` (cap 32), `Malloc(4)` succeeds but
overwrites the header of the following occupied block and disconnects the last
block: the block at index 1 changes and the block count drops from 3 to 2. -/
theorem c8_frame_bug :
    (InternalMalloc 32 4 [⟨true, 4⟩, ⟨false, 8⟩, ⟨true, 8⟩]).2 = some 4 ∧
    (InternalMalloc 32 4 [⟨true, 4⟩, ⟨false, 8⟩, ⟨true, 8⟩]).1[1]?
      ≠ ([(⟨true, 4⟩ : Block), ⟨false, 8⟩, ⟨true, 8⟩])[1]? ∧
    (InternalMalloc 32 4 [⟨true, 4⟩, ⟨false, 8⟩, ⟨true, 8⟩]).1.length ≠ 3 := by decide

/-- Claim C9: the loops terminate because the scans strictly advance.  For any
state whose blocks exactly cover the buffer, the chain holds at most
`cap / hdr` headers, each `Next` step advances the address by at least `hdr`,
and the scan reaches the buffer end exactly after the last block. -/
theorem c9_scan_bounded (cap : Nat) (L : List Block) (hsum : sumBlocks L = cap) :
    hdr * L.length ≤ cap ∧
    (∀ j, j < L.length → blockAddr L j + hdr ≤ blockAddr L (j + 1)) ∧
    blockAddr L L.length = cap :=
  ⟨hsum ▸ hdr_mul_length_le L, blockAddr_lt_succ L, by rw [blockAddr_length, hsum]⟩

theorem c9_scan_bounded_witness :
    sumBlocks [⟨true, 4⟩, ⟨false, 8⟩, ⟨true, 8⟩] = 32 ∧
    (hdr * ([(⟨true, 4⟩ : Block), ⟨false, 8⟩, ⟨true, 8⟩]).length ≤ 32 ∧
    (∀ j, j < ([(⟨true, 4⟩ : Block), ⟨false, 8⟩, ⟨true, 8⟩]).length →
      blockAddr [⟨true, 4⟩, ⟨false, 8⟩, ⟨true, 8⟩] j + hdr
        ≤ blockAddr [⟨true, 4⟩, ⟨false, 8⟩, ⟨true, 8⟩] (j + 1)) ∧
    blockAddr [⟨true, 4⟩, ⟨false, 8⟩, ⟨true, 8⟩]
      ([(⟨true, 4⟩ : Block), ⟨false, 8⟩, ⟨true, 8⟩]).length = 32) :=
  ⟨by decide, c9_scan_bounded 32 [⟨true, 4⟩, ⟨false, 8⟩, ⟨true, 8⟩] (by decide)⟩

/-- Claim C10 counterexample: on a fresh arena of capacity 12, `Malloc(0)`
succeeds (handle 4) but the leftover `12 - 8 = 4 ≤ hdr` is absorbed, so the
resulting occupied block has payload size 8, not 0. -/
theorem c10_small_arena :
    InternalMalloc 12 0 (fresh 12) = ([⟨false, 8⟩], some hdr) ∧
    (∀ b ∈ (InternalMalloc 12 0 (fresh 12)).1, ¬(b.Free = false ∧ b.Size = 0)) := by decide

/-- Claim C6: on a fresh arena, requesting a payload of exactly
`capacity - hdr` bytes succeeds with handle `hdr` and leaves a state that
still covers the buffer exactly with no adjacent free blocks, while
requesting one byte more returns `nullptr` and leaves the arena unchanged. -/
theorem c6_boundary (cap : Nat) (h4 : hdr ≤ cap) (hcap : cap < 2147483648) :
    InternalMalloc cap (cap - hdr) (fresh cap) = ([⟨false, cap - hdr⟩], some hdr) ∧
    sumBlocks [Block.mk false (cap - hdr)] = cap ∧
    noAdjFree [Block.mk false (cap - hdr)] ∧
    InternalMalloc cap (cap - hdr + 1) (fresh cap) = (fresh cap, none) := by
  have hfr := fresh_eq cap h4 hcap
  simp only [hdr] at h4
  refine ⟨?_, by simp [sumBlocks, hdr]; omega, by simp [noAdjFree], ?_⟩
  · rw [hfr]
    unfold InternalMalloc
    simp only [mallocGo]
    rw [if_neg (by omega : ¬ cap ≤ 0)]
    rw [if_pos (by simp : True ∧ cap - hdr ≤ cap - hdr)]
    rw [if_neg (by simp only [uns64, hdr]; omega)]
    rw [if_neg (by simp only [hdr]; omega : ¬ 0 + hdr + (cap - hdr) < cap)]
    norm_num
  · rw [hfr]
    unfold InternalMalloc
    simp only [mallocGo]
    rw [if_neg (by omega : ¬ cap ≤ 0)]
    rw [if_neg (by simp only [hdr]; omega : ¬ (True ∧ cap - hdr + 1 ≤ cap - hdr))]

theorem c6_boundary_witness :
    (hdr ≤ 32 ∧ (32 : Nat) < 2147483648) ∧
    (InternalMalloc 32 (32 - hdr) (fresh 32) = ([⟨false, 32 - hdr⟩], some hdr) ∧
      sumBlocks [Block.mk false (32 - hdr)] = 32 ∧
      noAdjFree [Block.mk false (32 - hdr)] ∧
      InternalMalloc 32 (32 - hdr + 1) (fresh 32) = (fresh 32, none)) :=
  ⟨⟨by decide, by decide⟩, c6_boundary 32 (by decide) (by decide)⟩

/-- Claim C10 as amended: a zero-byte request returns a handle whenever some
free block exists (every free block has payload size at least 0), and on a
fresh arena of capacity at least `hdr` it succeeds with handle `hdr`.  The
resulting occupied block has payload size 0 except when
`2 * hdr ≤ capacity ≤ 3 * hdr`, where the leftover (between 0 and `hdr`)
is absorbed and the occupied block keeps payload size `capacity - hdr`.
In the split case `capacity > 3 * hdr` a free block of size
`capacity - 2 * hdr` follows the payload-0 block; for
`hdr < capacity < 2 * hdr` the leftover is negative and the
signed-to-unsigned slip splits anyway, leaving the payload-0 block followed
by a wrapped free block of size `2^31 - (2 * hdr - capacity)`; for
`capacity = hdr` the wrapped header falls exactly on the buffer end, leaving
the payload-0 block alone. -/
theorem c10_zero_alloc (cap : Nat) (L : List Block) (hcap : cap < 2147483648)
    (hsum : sumBlocks L = cap) :
    ((∃ b ∈ L, b.Free = true) → (InternalMalloc cap 0 L).2.isSome = true) ∧
    (13 ≤ cap → InternalMalloc cap 0 (fresh cap) = ([⟨false, 0⟩, ⟨true, cap - 8⟩], some hdr)) ∧
    (8 ≤ cap → cap ≤ 12 → InternalMalloc cap 0 (fresh cap) = ([⟨false, cap - 4⟩], some hdr)) ∧
    (5 ≤ cap → cap ≤ 7 →
      InternalMalloc cap 0 (fresh cap) = ([⟨false, 0⟩, ⟨true, 2147483640 + cap⟩], some hdr)) ∧
    (cap = 4 → InternalMalloc cap 0 (fresh cap) = ([⟨false, 0⟩], some hdr)) := by
  refine ⟨?_, ?_, ?_, ?_, ?_⟩
  · rintro ⟨b, hb, hbf⟩
    have h1 : (InternalMalloc cap 0 L).2
        = (specFirstFit 0 L).map (fun j => 0 + blockAddr L j + hdr) :=
      mallocGo_handle cap 0 L 0 (by omega)
    rw [h1]
    cases hsf : specFirstFit 0 L with
    | some j => simp
    | none =>
      exfalso
      have := (specFirstFit_eq_none 0 L).mp hsf b hb hbf
      omega
  · intro h13
    have hfr := fresh_eq cap (by simp [hdr]; omega) hcap
    rw [hfr]
    unfold InternalMalloc
    simp only [mallocGo]
    rw [if_neg (by omega : ¬ cap ≤ 0)]
    rw [if_pos (by simp : True ∧ 0 ≤ (Block.mk true (cap - hdr)).Size)]
    rw [if_neg (by simp only [uns64, hdr]; omega)]
    rw [if_pos (by simp only [hdr]; omega : 0 + hdr + 0 < cap)]
    rw [if_pos (by simp only [hdr]; omega : (0 : Int) ≤ ↑(cap - hdr) - ↑(0 : Nat) - ↑hdr)]
    have e1 : ((cap - hdr : Nat) : Int) - ((0 : Nat) : Int) - (hdr : Int)
        = ((cap - 8 : Nat) : Int) := by
      simp [hdr]; omega
    rw [e1, u31_ofNat _ (by omega)]
    norm_num
  · intro h8 h12
    have hfr := fresh_eq cap (by simp [hdr]; omega) hcap
    rw [hfr]
    unfold InternalMalloc
    simp only [mallocGo]
    rw [if_neg (by omega : ¬ cap ≤ 0)]
    rw [if_pos (by simp : True ∧ 0 ≤ (Block.mk true (cap - hdr)).Size)]
    rw [if_pos (by simp only [uns64, hdr]; omega)]
    have e1 : u31 (((0 : Nat) : Int) + (((cap - hdr : Nat) : Int) - ((0 : Nat) : Int) - (hdr : Int)) + (hdr : Int))
        = cap - 4 := by
      unfold u31
      simp only [hdr]
      omega
    rw [e1]
    norm_num
  · intro h5 h7
    have hfr := fresh_eq cap (by simp [hdr]; omega) hcap
    rw [hfr]
    unfold InternalMalloc
    simp only [mallocGo]
    rw [if_neg (by omega : ¬ cap ≤ 0)]
    rw [if_pos (by simp : True ∧ 0 ≤ (Block.mk true (cap - hdr)).Size)]
    rw [if_neg (by simp only [uns64, hdr]; omega)]
    rw [if_pos (by simp only [hdr]; omega : 0 + hdr + 0 < cap)]
    rw [if_neg (by simp only [hdr]; omega : ¬ (0 : Int) ≤ ↑(cap - hdr) - ↑(0 : Nat) - ↑hdr)]
    have e1 : u31 (((cap - hdr : Nat) : Int) - ((0 : Nat) : Int) - (hdr : Int))
        = 2147483640 + cap := by
      unfold u31
      simp only [hdr]
      omega
    rw [e1]
    norm_num
  · intro h4
    subst h4
    decide

theorem c10_zero_alloc_witness :
    ((32 : Nat) < 2147483648 ∧ sumBlocks (fresh 32) = 32) ∧
    (((∃ b ∈ fresh 32, b.Free = true) →
      (InternalMalloc 32 0 (fresh 32)).2.isSome = true) ∧
    (13 ≤ 32 → InternalMalloc 32 0 (fresh 32)
      = ([⟨false, 0⟩, ⟨true, 32 - 8⟩], some hdr)) ∧
    (8 ≤ 32 → 32 ≤ 12 → InternalMalloc 32 0 (fresh 32) = ([⟨false, 32 - 4⟩], some hdr)) ∧
    (5 ≤ 32 → 32 ≤ 7 →
      InternalMalloc 32 0 (fresh 32) = ([⟨false, 0⟩, ⟨true, 2147483640 + 32⟩], some hdr)) ∧
    (32 = 4 → InternalMalloc 32 0 (fresh 32) = ([⟨false, 0⟩], some hdr))) :=
  ⟨⟨by decide, by decide⟩,
   c10_zero_alloc 32 (fresh 32) (by decide) (by decide)⟩

/-- `findBlock` locates the block whose header address is the total extent of
the blocks before it. -/
theorem findBlock_spec (A : List Block) :
    ∀ (P : List Block) (a m : Nat) (b : Block) (B : List Block),
      m = a + sumBlocks A →
      findBlock m a P (A ++ b :: B) = some (A.reverse ++ P, b, B) := by
  induction A with
  | nil =>
    intro P a m b B hm
    simp [sumBlocks] at hm
    subst hm
    simp [findBlock]
  | cons x A1 ih =>
    intro P a m b B hm
    have hne : ¬ a = m := by simp [sumBlocks, hdr] at hm; omega
    have hnlt : ¬ m < a := by simp [sumBlocks, hdr] at hm; omega
    simp only [List.cons_append, findBlock]
    rw [if_neg hne, if_neg hnlt]
    simp only [List.append_eq]
    rw [ih (x :: P) (a + hdr + x.Size) m b B (by simp [sumBlocks] at hm ⊢; omega)]
    simp

/-- The forward coalescing step succeeds on invariant-satisfying states, keeps
the covered extent, and yields a block chain with no leading free pair. -/
theorem joinForward_ok (s : Nat) (B : List Block)
    (hB : noAdjFree B) (hbound : s + sumBlocks B + hdr < 2147483648) :
    ∃ s1 S1, joinForward s B = some (s1, S1) ∧
      noAdjFree (Block.mk true s1 :: S1) ∧
      s1 + sumBlocks S1 ≤ s + sumBlocks B := by
  cases B with
  | nil => exact ⟨s, [], rfl, by simp [noAdjFree], by simp⟩
  | cons n B1 =>
    by_cases hn : n.Free = true
    · have ht : s + n.Size + hdr < 2147483648 := by
        simp [sumBlocks, hdr] at hbound ⊢; omega
      refine ⟨s + n.Size + hdr, B1, ?_, ?_, ?_⟩
      · simp [joinForward, hn, ht]
      · unfold noAdjFree at hB ⊢
        rw [List.chain'_cons'] at hB ⊢
        refine ⟨?_, hB.2⟩
        intro y hy
        have hr := hB.1 y hy
        simp [hn] at hr ⊢
        exact hr
      · simp [sumBlocks]; omega
    · refine ⟨s, n :: B1, ?_, ?_, le_refl _⟩
      · simp [joinForward, hn]
      · unfold noAdjFree at hB ⊢
        rw [List.chain'_cons']
        refine ⟨?_, hB⟩
        intro y hy
        simp at hy
        subst hy
        simp [hn]

/-- The backward coalescing step succeeds on invariant-satisfying states and
yields a chain with no adjacent free blocks. -/
theorem joinBackward_ok (A : List Block) (s1 : Nat) (S1 : List Block)
    (hA : noAdjFree A) (hS : noAdjFree (Block.mk true s1 :: S1))
    (hbound : sumBlocks A + s1 + hdr < 2147483648) :
    ∃ L', joinBackward s1 S1 A.reverse = some L' ∧ noAdjFree L' := by
  rcases List.eq_nil_or_concat A with rfl | ⟨A0, p0, rfl⟩
  · exact ⟨Block.mk true s1 :: S1, by simp [joinBackward], hS⟩
  · simp only [List.concat_eq_append] at hA hbound ⊢
    have hrev : (A0 ++ [p0]).reverse = p0 :: A0.reverse := by simp
    rw [hrev]
    by_cases hp : p0.Free = true
    · have ht : p0.Size + s1 + hdr < 2147483648 := by
        rw [sumBlocks_append] at hbound
        simp [sumBlocks, hdr] at hbound ⊢
        omega
      refine ⟨A0 ++ Block.mk true (p0.Size + s1 + hdr) :: S1, ?_, ?_⟩
      · simp [joinBackward, hp, ht]
      · unfold noAdjFree at hA hS ⊢
        rw [List.chain'_append] at hA ⊢
        rw [List.chain'_cons'] at hS
        refine ⟨hA.1, ?_, ?_⟩
        · rw [List.chain'_cons']
          refine ⟨?_, hS.2⟩
          intro y hy
          have hr := hS.1 y hy
          simp at hr ⊢
          exact hr
        · intro x hx y hy
          have hb := hA.2.2 x hx p0 (by simp)
          simp at hy
          subst hy
          simp [hp] at hb ⊢
          exact hb
    · refine ⟨(A0 ++ [p0]) ++ Block.mk true s1 :: S1, ?_, ?_⟩
      · simp [joinBackward, hp]
      · unfold noAdjFree at hA hS ⊢
        rw [List.chain'_append]
        refine ⟨hA, hS, ?_⟩
        intro x hx y hy
        simp at hy
        subst hy
        rw [List.getLast?_concat] at hx
        simp at hx
        subst hx
        simp [hp]

/-- Auxiliary: releasing the payload address of a chain block from a state
whose blocks exactly cover the buffer and contain no adjacent free pair
results in a state with no two adjacent free blocks: the freed block is
coalesced with the following block if free and then with the preceding block
if free.  On states that the wrapped-header slip has corrupted this fails
(see the release step proved below against the claim). -/
theorem release_no_adjacent_free_of_wf (cap : Nat) (A B : List Block) (b : Block)
    (hcap : cap < 2147483648) (hsum : sumBlocks (A ++ b :: B) = cap)
    (hadj : noAdjFree (A ++ b :: B)) (hocc : b.Free = false) :
    ∃ L', InternalFree cap (A ++ b :: B) ((sumBlocks A + hdr : Nat)) = some L' ∧
      noAdjFree L' := by
  have hx : sumBlocks A + (hdr + b.Size + sumBlocks B) = cap := by
    rw [← hsum, sumBlocks_append]; rfl
  have hguard : ¬(((sumBlocks A + hdr : Nat) : Int) - hdr < 0 ∨
      ((sumBlocks A + hdr : Nat) : Int) - hdr > cap) := by
    push_neg
    constructor <;> [skip; skip] <;> omega
  have hfb : findBlock ((((sumBlocks A + hdr : Nat) : Int) - hdr).toNat) 0 [] (A ++ b :: B)
      = some (A.reverse, b, B) := by
    have h2 : ((((sumBlocks A + hdr : Nat)) : Int) - hdr).toNat = 0 + sumBlocks A := by omega
    rw [h2, findBlock_spec A [] 0 (0 + sumBlocks A) b B rfl]
    simp
  have hAn : noAdjFree A := by
    unfold noAdjFree at hadj ⊢
    exact (List.chain'_append.mp hadj).1
  have hBn : noAdjFree B := by
    unfold noAdjFree at hadj ⊢
    exact ((List.chain'_append.mp hadj).2.1).tail
  obtain ⟨s1, S1, hjf, hchain1, hle1⟩ :=
    joinForward_ok b.Size B hBn (by simp [hdr] at hx ⊢; omega)
  obtain ⟨L', hjb, hchain2⟩ :=
    joinBackward_ok A s1 S1 hAn hchain1 (by simp [hdr] at hx ⊢; omega)
  refine ⟨L', ?_, hchain2⟩
  unfold InternalFree
  rw [if_neg hguard, hfb]
  show JoinBlocks A.reverse b.Size B = some L'
  unfold JoinBlocks
  rw [hjf]
  exact hjb

theorem release_no_adjacent_free_of_wf_inst :
    ((32 : Nat) < 2147483648 ∧
      sumBlocks ([⟨true, 4⟩] ++ (⟨false, 8⟩ : Block) :: [⟨true, 8⟩]) = 32 ∧
      noAdjFree ([⟨true, 4⟩] ++ (⟨false, 8⟩ : Block) :: [⟨true, 8⟩]) ∧
      (⟨false, 8⟩ : Block).Free = false) ∧
    (∃ L', InternalFree 32 ([⟨true, 4⟩] ++ (⟨false, 8⟩ : Block) :: [⟨true, 8⟩])
        ((sumBlocks [(⟨true, 4⟩ : Block)] + hdr : Nat)) = some L' ∧ noAdjFree L') :=
  ⟨⟨by decide, by decide, by decide, by decide⟩,
   release_no_adjacent_free_of_wf 32 [⟨true, 4⟩] [⟨true, 8⟩] ⟨false, 8⟩
     (by decide) (by decide) (by decide) (by decide)⟩

/-- Claim C4 (code bug): releasing a valid handle can leave two adjacent free
blocks.  With cap 128, after `Malloc(20) -> 4`, `Malloc(40) -> 28`, `Free(4)`,
`Malloc(20) -> 4` (the exact-fit slip plants a free header with
`Size = 2^31 - 4` over the second block) and `Free(28)`, the handle 4 returned
by the fourth operation is still live and points at the occupied block at
offset 0.  Releasing it marks the block free and forward-merges with the
wrapped free block, but the 31-bit size addition wraps
(`20 + (2^31 - 4) + 4 = 20 mod 2^31`), so the successor address is unchanged
and both blocks remain, adjacent and free. -/
theorem c4_adjacent_free_after_release :
    run 128 [.malloc 20, .malloc 40, .free 4, .malloc 20, .free 28]
      = some ([⟨false, 20⟩, ⟨true, 2147483644⟩], [some 4, some 28, some 4]) ∧
    InternalFree 128 [⟨false, 20⟩, ⟨true, 2147483644⟩] 4
      = some [⟨true, 20⟩, ⟨true, 2147483644⟩] ∧
    ¬ noAdjFree [⟨true, 20⟩, ⟨true, 2147483644⟩] := by decide

end XoAlloc
